import Mathlib

/-!
Verification of the session gate and conversation deduplicator of the
Messaging_Platform_Application backend (src-tauri/src/auth.rs and
src-tauri/src/conversations.rs), as a shallow embedding.

Conventions of the embedding:
* `chrono::Utc::now().timestamp()` readings are passed as an explicit
  `now : Int` argument; a fresh reading is a fresh argument.
* The `Mutex<Option<Session>>` slot is passed as an explicit
  `Option Session` value; functions that may write the slot return the
  slot contents after the call.
* Library functions of external crates (uuid parsing, base64 decoding,
  UTF-8 validation, JSON parsing) are taken as parameters, so theorems
  quantify over every possible behaviour of those crates.
-/

/-- `Session` from auth.rs: the cached authenticated identity. -/
structure Session where
  access_token : String
  refresh_token : String
  id_token : String
  user_id : String
  email : String
  expires_at : Int
deriving DecidableEq, Repr

/-- `PublicSessionInfo` from auth.rs: session info exposed to the frontend. -/
structure PublicSessionInfo where
  user_id : String
  email : String
  is_authenticated : Bool
deriving DecidableEq, Repr

/-- `sign_out` from auth.rs: unconditionally clears the slot and returns true. -/
def sign_out (_slot : Option Session) : Bool × Option Session :=
  (true, none)

/-- `get_session` from auth.rs. Returns the public info and the slot contents
after the call (the Rust body only reads the slot). -/
def get_session (slot : Option Session) (now : Int) :
    Option PublicSessionInfo × Option Session :=
  match slot with
  | some session =>
      if now ≥ session.expires_at then
        (none, some session)
      else
        (some ⟨session.user_id, session.email, true⟩, some session)
  | none => (none, none)

/-- `get_auth_token` from auth.rs. -/
def get_auth_token (slot : Option Session) (now : Int) :
    Option String × Option Session :=
  match slot with
  | some session =>
      if now ≥ session.expires_at then
        (none, some session)
      else
        (some session.access_token, some session)
  | none => (none, none)

/-- `get_user_id` from auth.rs. -/
def get_user_id (slot : Option Session) (now : Int) :
    Option String × Option Session :=
  match slot with
  | some session =>
      if now ≥ session.expires_at then
        (none, some session)
      else
        (some session.user_id, some session)
  | none => (none, none)

/-- `get_user_id_from_store` from conversations.rs: the session gate used by
every conversation command. -/
def get_user_id_from_store (slot : Option Session) (now : Int) :
    Except String String × Option Session :=
  match slot with
  | some session =>
      if now ≥ session.expires_at then
        (.error "Session expired. Please sign in again.", some session)
      else
        (.ok session.user_id, some session)
  | none => (.error "Not authenticated. Please sign in.", none)

/-- `sync_oauth_session` from auth.rs: validates the two load-bearing fields,
then installs the supplied session over whatever the slot held. -/
def sync_oauth_session (access_token refresh_token id_token user_id email : String)
    (expires_at : Int) (slot : Option Session) :
    Except String Bool × Option Session :=
  if access_token.isEmpty then
    (.error "Access token is required", slot)
  else if user_id.isEmpty then
    (.error "User ID is required", slot)
  else
    (.ok true, some ⟨access_token, refresh_token, id_token, user_id, email, expires_at⟩)

/-- Lexicographic (byte/scalar) order on char lists: the order Rust's `<` on
`String` uses, written by structural recursion so that it computes in the
kernel. UTF-8 byte order coincides with scalar-value order, so comparing
`Char` lists is faithful to Rust's byte comparison. -/
def str_lt : List Char → List Char → Bool
  | [], [] => false
  | [], _ :: _ => true
  | _ :: _, [] => false
  | a :: as, b :: bs => if a < b then true else if b < a then false else str_lt as bs

/-- `str_lt` is the lexicographic order on lists. -/
theorem str_lt_iff (as bs : List Char) : str_lt as bs = true ↔ as < bs := by
  induction as generalizing bs with
  | nil =>
      cases bs with
      | nil =>
          refine iff_of_false (by simp [str_lt]) ?_
          intro h
          cases h
      | cons b bs => exact iff_of_true rfl (List.Lex.nil)
  | cons a as ih =>
      cases bs with
      | nil =>
          refine iff_of_false (by simp [str_lt]) ?_
          intro h
          cases h
      | cons b bs =>
          rcases lt_trichotomy a b with h1 | h1 | h1
          · exact iff_of_true (by simp [str_lt, h1]) (List.Lex.rel h1)
          · subst h1
            have : str_lt (a :: as) (a :: bs) = str_lt as bs := by
              simp [str_lt]
            rw [this, ih bs]
            constructor
            · exact fun h => List.Lex.cons h
            · intro h
              cases h with
              | cons h => exact h
              | rel h => exact absurd h (lt_irrefl a)
          · refine iff_of_false ?_ ?_
            · simp [str_lt, asymm h1, h1]
            · intro h
              cases h with
              | cons h' => exact absurd h1 (lt_irrefl a)
              | rel h' => exact absurd h' (asymm h1)

/-- `str_lt` on the underlying data is exactly `<` on `String`. -/
theorem str_lt_iff_string (a b : String) : str_lt a.data b.data = true ↔ a < b := by
  rw [String.lt_iff_toList_lt]
  exact str_lt_iff a.data b.data

/-- Rust's `str::split(c)`, written by structural recursion on the char list. -/
def split_on_char (c : Char) : List Char → List (List Char)
  | [] => [[]]
  | x :: xs =>
      if x = c then
        [] :: split_on_char c xs
      else
        match split_on_char c xs with
        | [] => [[x]]
        | y :: ys => (x :: y) :: ys

/-- `s.split(c).collect::<Vec<_>>()` from Rust, as a `String` operation. -/
def split_char (s : String) (c : Char) : List String :=
  (split_on_char c s.data).map String.mk

/-- serde_json::Value, as consumed by `decode_id_token`. -/
inductive Json where
  | null
  | bool (b : Bool)
  | num (n : Int)
  | str (s : String)
  | arr (elems : List Json)
  | obj (fields : List (String × Json))

/-- `json[key]` for a string key: field lookup on objects, `Null` otherwise
(serde_json's `Index<&str> for Value`). -/
def Json.index (j : Json) (key : String) : Json :=
  match j with
  | .obj fields =>
      match fields.find? (fun p => p.1 == key) with
      | some p => p.2
      | none => .null
  | _ => .null

/-- `Value::as_str`: `some` exactly on JSON strings. -/
def Json.as_str : Json → Option String
  | .str s => some s
  | _ => none

/-- `decode_id_token` from auth.rs, parameterised over the base64url decoder,
UTF-8 validator and JSON parser of the external crates. -/
def decode_id_token (b64decode : String → Option (List Nat))
    (utf8decode : List Nat → Option String) (json_parse : String → Option Json)
    (id_token : String) : String × String :=
  let parts := split_char id_token '.'
  if parts.length ≠ 3 then
    ("", "")
  else
    match b64decode (parts.getD 1 "") with
    | some decoded =>
        match utf8decode decoded with
        | some payload =>
            match json_parse payload with
            | some json =>
                (((json.index "sub").as_str).getD "", ((json.index "email").as_str).getD "")
            | none => ("", "")
        | none => ("", "")
    | none => ("", "")

/-- The decoded payload of a token: `some` exactly when the token has three
dot-separated parts and the middle one decodes via base64url, UTF-8 and JSON. -/
def jwt_payload (b64decode : String → Option (List Nat))
    (utf8decode : List Nat → Option String) (json_parse : String → Option Json)
    (id_token : String) : Option Json :=
  let parts := split_char id_token '.'
  if parts.length ≠ 3 then
    none
  else
    ((b64decode (parts.getD 1 "")).bind utf8decode).bind json_parse

/-- Outcome of the identity provider's refresh call in `refresh_session`:
a response with an authentication result, a response without one, or an error. -/
inductive RefreshOutcome where
  | success (access_token id_token : String) (expires_in : Int)
  | noAuthResult
  | providerError
deriving DecidableEq, Repr

/-- `refresh_session` from auth.rs. The slot is read twice, under two separate
lock acquisitions: `slotAtRead` is its content when the refresh token is read,
`slotAtWrite` its content when the success branch locks again to write back
(a sequential run has `slotAtWrite = slotAtRead`). `dec` stands for
`decode_id_token` applied to the new id token. -/
def refresh_session (dec : String → String × String) (slotAtRead : Option Session)
    (outcome : RefreshOutcome) (now : Int) (slotAtWrite : Option Session) :
    Bool × Option Session :=
  match slotAtRead with
  | none => (false, none)
  | some _ =>
      match outcome with
      | .success access_token id_token expires_in =>
          let decoded := dec id_token
          (true,
            match slotAtWrite with
            | some session =>
                some { session with
                         access_token := access_token
                         id_token := id_token
                         user_id := decoded.1
                         email := decoded.2
                         expires_at := now + expires_in }
            | none => none)
      | .noAuthResult => (false, slotAtWrite)
      | .providerError => (false, none)

/-- The canonical DM key computed inside `get_or_create_dm_conversation`
(conversations.rs lines 107-112): `user_id < other_user_id` in Rust is the
lexicographic byte order, embedded here as `str_lt` on the char data. -/
def dm_key (user_id other_user_id : String) : String :=
  if str_lt user_id.data other_user_id.data then
    user_id ++ ":" ++ other_user_id
  else
    other_user_id ++ ":" ++ user_id

/-- `dm_key` written with the ambient string order, to match the source text
`if user_id < other_user_id` letter for letter. -/
theorem dm_key_eq_if_lt (a b : String) :
    dm_key a b = if a < b then a ++ ":" ++ b else b ++ ":" ++ a := by
  by_cases h : a < b
  · rw [dm_key, if_pos ((str_lt_iff_string a b).mpr h), if_pos h]
  · rw [dm_key, if_neg ?_, if_neg h]
    intro hc
    exact h ((str_lt_iff_string a b).mp hc)

/-- C2: the canonical participant key is order-independent, and it is the
lexicographically smaller identifier, the separator ':', then the larger one. -/
theorem dm_key_canonical (a b : String) (h : a ≠ b) :
    dm_key a b = dm_key b a ∧ dm_key a b = min a b ++ ":" ++ max a b := by
  rw [dm_key_eq_if_lt, dm_key_eq_if_lt]
  rcases lt_trichotomy a b with hlt | heq | hgt
  · rw [if_pos hlt, if_neg (asymm hlt), min_eq_left hlt.le, max_eq_right hlt.le]
    exact ⟨rfl, rfl⟩
  · exact absurd heq h
  · rw [if_neg (asymm hgt), if_pos hgt, min_eq_right hgt.le, max_eq_left hgt.le]
    exact ⟨rfl, rfl⟩

theorem dm_key_canonical_witness :
    ("a" : String) ≠ "b" ∧
      (dm_key "a" "b" = dm_key "b" "a" ∧
        dm_key "a" "b" = min "a" "b" ++ ":" ++ max "a" "b") :=
  ⟨by decide, dm_key_canonical "a" "b" (by decide)⟩

/-- C4: `get_user_id`, `get_session` and the gate `get_user_id_from_store`
return the held session's subject id iff a session is present and its expiry
instant is strictly greater than the clock reading passed to that call. -/
theorem session_readers_valid_iff (slot : Option Session) (now : Int) (uid : String)
    (info : PublicSessionInfo) :
    ((get_user_id slot now).1 = some uid ↔
        ∃ s, slot = some s ∧ uid = s.user_id ∧ now < s.expires_at) ∧
    ((get_session slot now).1 = some info ↔
        ∃ s, slot = some s ∧ info = ⟨s.user_id, s.email, true⟩ ∧ now < s.expires_at) ∧
    ((get_user_id_from_store slot now).1 = .ok uid ↔
        ∃ s, slot = some s ∧ uid = s.user_id ∧ now < s.expires_at) := by
  cases slot with
  | none =>
      refine ⟨?_, ?_, ?_⟩ <;> simp [get_user_id, get_session, get_user_id_from_store]
  | some s =>
      by_cases hexp : now ≥ s.expires_at
      · refine ⟨?_, ?_, ?_⟩ <;>
          simp only [get_user_id, get_session, get_user_id_from_store, if_pos hexp] <;>
            simp <;> omega
      · refine ⟨?_, ?_, ?_⟩ <;>
          simp only [get_user_id, get_session, get_user_id_from_store, if_neg hexp] <;>
            simp [eq_comm] <;> omega

/-- C5: an expired session is reported as absent/unauthenticated by every
reader, and no reader clears or modifies the stored session. -/
theorem expired_session_reads_frame (sess : Session) (now : Int)
    (h : sess.expires_at ≤ now) :
    get_session (some sess) now = (none, some sess) ∧
    get_auth_token (some sess) now = (none, some sess) ∧
    get_user_id (some sess) now = (none, some sess) ∧
    get_user_id_from_store (some sess) now =
      (.error "Session expired. Please sign in again.", some sess) := by
  have hge : now ≥ sess.expires_at := h
  refine ⟨?_, ?_, ?_, ?_⟩ <;>
    simp [get_session, get_auth_token, get_user_id, get_user_id_from_store, hge]

def sampleSession : Session :=
  ⟨"at", "rt", "it", "u1", "e@x", 5⟩

theorem expired_session_reads_frame_witness :
    sampleSession.expires_at ≤ 10 ∧
      (get_session (some sampleSession) 10 = (none, some sampleSession) ∧
        get_auth_token (some sampleSession) 10 = (none, some sampleSession) ∧
        get_user_id (some sampleSession) 10 = (none, some sampleSession) ∧
        get_user_id_from_store (some sampleSession) 10 =
          (.error "Session expired. Please sign in again.", some sampleSession)) :=
  ⟨by decide, expired_session_reads_frame sampleSession 10 (by decide)⟩

/-- C6: `refresh_session` returns false on an empty slot without touching it,
and on a provider error it clears the slot (whatever it holds at write-back
time) and returns false. -/
theorem refresh_session_fail_closed (dec : String → String × String)
    (outcome : RefreshOutcome) (sess : Session) (now : Int)
    (slotAtWrite : Option Session) :
    refresh_session dec none outcome now slotAtWrite = (false, none) ∧
    refresh_session dec (some sess) .providerError now slotAtWrite = (false, none) :=
  ⟨rfl, rfl⟩

/-- C10: when the provider returns fresh tokens but the slot is empty at
write-back, the success path leaves the slot empty and still returns true. -/
theorem refresh_session_preserves_empty_slot (dec : String → String × String)
    (sess : Session) (access_token id_token : String) (expires_in now : Int) :
    refresh_session dec (some sess) (.success access_token id_token expires_in) now none =
      (true, none) :=
  rfl

/-- C8: `sync_oauth_session` rejects exactly when the access token or the
subject id is empty, leaving the slot unchanged; otherwise it installs the
supplied session over whatever was held. -/
theorem sync_oauth_session_spec
    (access_token refresh_token id_token user_id email : String)
    (expires_at : Int) (slot : Option Session) :
    ((∃ msg, sync_oauth_session access_token refresh_token id_token user_id email
        expires_at slot = (.error msg, slot)) ↔ access_token = "" ∨ user_id = "") ∧
    (access_token ≠ "" → user_id ≠ "" →
      sync_oauth_session access_token refresh_token id_token user_id email
        expires_at slot =
        (.ok true, some ⟨access_token, refresh_token, id_token, user_id, email,
          expires_at⟩)) := by
  by_cases ha : access_token = ""
  · simp [sync_oauth_session, String.isEmpty_iff, ha]
  · by_cases hu : user_id = ""
    · simp [sync_oauth_session, String.isEmpty_iff, ha, hu]
    · simp [sync_oauth_session, String.isEmpty_iff, ha, hu]

theorem sync_oauth_session_witness :
    sync_oauth_session "a" "r" "i" "u" "e" 5 none =
      (.ok true, some ⟨"a", "r", "i", "u", "e", 5⟩) :=
  (sync_oauth_session_spec "a" "r" "i" "u" "e" 5 none).2 (by decide) (by decide)

/-- `decode_id_token` is the `sub`/`email` projection of `jwt_payload`, with
empty strings substituted on every failure. -/
theorem decode_id_token_eq_payload (b64decode : String → Option (List Nat))
    (utf8decode : List Nat → Option String) (json_parse : String → Option Json)
    (id_token : String) :
    decode_id_token b64decode utf8decode json_parse id_token =
      match jwt_payload b64decode utf8decode json_parse id_token with
      | some json =>
          (((json.index "sub").as_str).getD "", ((json.index "email").as_str).getD "")
      | none => ("", "") := by
  simp only [decode_id_token, jwt_payload]
  by_cases h3 : (split_char id_token '.').length = 3
  · have h3' : ¬((split_char id_token '.').length ≠ 3) := by simp [h3]
    simp only [if_neg h3']
    cases b64decode ((split_char id_token '.').getD 1 "") with
    | none => rfl
    | some decoded =>
        dsimp only [Option.bind]
        cases utf8decode decoded with
        | none => rfl
        | some payload => dsimp only
  · simp only [if_pos h3]

/-- C9: whenever the token is not a three-part dot-separated string whose
middle segment decodes (base64url, UTF-8, JSON), `decode_id_token` returns a
pair of empty strings; and a decoded payload without a string `sub` or `email`
field yields an empty string in the corresponding component. No failure is
ever reported as an error. -/
theorem decode_id_token_defaults (b64decode : String → Option (List Nat))
    (utf8decode : List Nat → Option String) (json_parse : String → Option Json)
    (id_token : String) :
    (jwt_payload b64decode utf8decode json_parse id_token = none →
       decode_id_token b64decode utf8decode json_parse id_token = ("", "")) ∧
    (∀ json, jwt_payload b64decode utf8decode json_parse id_token = some json →
       ((json.index "sub").as_str = none →
          (decode_id_token b64decode utf8decode json_parse id_token).1 = "") ∧
       ((json.index "email").as_str = none →
          (decode_id_token b64decode utf8decode json_parse id_token).2 = "")) := by
  constructor
  · intro hnone
    rw [decode_id_token_eq_payload, hnone]
  · intro json hjson
    rw [decode_id_token_eq_payload, hjson]
    constructor
    · intro hsub
      simp [hsub]
    · intro hemail
      simp [hemail]

theorem decode_id_token_defaults_witness :
    jwt_payload (fun _ => none) (fun _ => none) (fun _ => none) "x" = none ∧
      decode_id_token (fun _ => none) (fun _ => none) (fun _ => none) "x" = ("", "") :=
  ⟨rfl, (decode_id_token_defaults (fun _ => none) (fun _ => none) (fun _ => none)
      "x").1 rfl⟩

/-- A row of the `conversations` table. Row identifiers (uuids rendered as
text by `id::text`) are abstracted as distinct naturals drawn from a counter. -/
structure ConvRow where
  id : Nat
  ctype : String
  dm_participant_key : Option String
deriving DecidableEq, Repr

/-- A row of the `conversation_participants` table (the `last_read_at` marker
is irrelevant to this core and omitted). -/
structure PartRow where
  conversation_id : Nat
  user_id : String
deriving DecidableEq, Repr

/-- The committed state of the relational store. -/
structure Store where
  convs : List ConvRow
  parts : List PartRow
  next_id : Nat
deriving DecidableEq, Repr

/-- `SELECT id::text FROM conversations WHERE type = 'direct' AND
dm_participant_key = $1` over the committed rows. -/
def find_direct_by_key (s : Store) (k : String) : Option Nat :=
  (s.convs.find? fun c =>
    decide (c.ctype = "direct" ∧ c.dm_participant_key = some k)).map (·.id)

/-- `SELECT id::text FROM conversations WHERE dm_participant_key = $1`
(the re-query after an insert conflict has no type filter). -/
def find_by_key (s : Store) (k : String) : Option Nat :=
  (s.convs.find? fun c => decide (c.dm_participant_key = some k)).map (·.id)

/-- The store operations `get_or_create_dm_conversation` issues, in order. -/
inductive DbOp where
  | beginTx
  | selectForUpdate
  | insertConv
  | requery
  | insertParts
  | commitTx
deriving DecidableEq, Repr

/-- `ConversationResult` from conversations.rs. -/
structure ConversationResult where
  success : Bool
  conversation_id : Option Nat
  error : Option String
deriving DecidableEq, Repr

/-- `get_or_create_dm_conversation` from conversations.rs, run sequentially
against committed store state `s`. `uuid_ok` stands for
`uuid::Uuid::parse_str(..).is_ok()`; `db k` is the failure injected into the
k-th store call (`none` = the call succeeds), over-approximating every
provider-failure schedule. Returns the command result, the committed store
after the call (failures roll the transaction back), and the trace of store
operations that were issued. -/
def get_or_create_dm_conversation (uuid_ok : String → Bool)
    (slot : Option Session) (now : Int) (other_user_id : String)
    (s : Store) (db : Nat → Option String) :
    Except String ConversationResult × Store × List DbOp :=
  match (get_user_id_from_store slot now).1 with
  | .error e => (.error e, s, [])
  | .ok user_id =>
    if uuid_ok other_user_id = false then
      (.ok ⟨false, none, some "Invalid user ID"⟩, s, [])
    else if other_user_id = user_id then
      (.ok ⟨false, none, some "Cannot create conversation with yourself"⟩, s, [])
    else
      match db 0 with
      | some e => (.error ("Failed to start transaction: " ++ e), s, [.beginTx])
      | none =>
        let key := dm_key user_id other_user_id
        match db 1 with
        | some e =>
            (.error ("Database error: " ++ e), s, [.beginTx, .selectForUpdate])
        | none =>
          match find_direct_by_key s key with
          | some conversation_id =>
              match db 2 with
              | some e =>
                  (.error ("Failed to commit transaction: " ++ e), s,
                    [.beginTx, .selectForUpdate, .commitTx])
              | none =>
                  (.ok ⟨true, some conversation_id, none⟩, s,
                    [.beginTx, .selectForUpdate, .commitTx])
          | none =>
            match db 2 with
            | some _ =>
                -- `fetch_one` on the insert returned an error; the code treats
                -- any error as a conflict and re-queries in the same transaction
                match db 3 with
                | some e =>
                    (.error ("Database error: " ++ e), s,
                      [.beginTx, .selectForUpdate, .insertConv, .requery])
                | none =>
                  match find_by_key s key with
                  | some cid =>
                      match db 4 with
                      | some e =>
                          (.error ("Failed to commit transaction: " ++ e), s,
                            [.beginTx, .selectForUpdate, .insertConv, .requery,
                              .commitTx])
                      | none =>
                          (.ok ⟨true, some cid, none⟩, s,
                            [.beginTx, .selectForUpdate, .insertConv, .requery,
                              .commitTx])
                  | none =>
                      (.error "Database error: no rows returned", s,
                        [.beginTx, .selectForUpdate, .insertConv, .requery])
            | none =>
              let conversation_id := s.next_id
              match db 3 with
              | some e =>
                  (.error ("Database error: " ++ e), s,
                    [.beginTx, .selectForUpdate, .insertConv, .insertParts])
              | none =>
                match db 4 with
                | some e =>
                    (.error ("Failed to commit transaction: " ++ e), s,
                      [.beginTx, .selectForUpdate, .insertConv, .insertParts,
                        .commitTx])
                | none =>
                    (.ok ⟨true, some conversation_id, none⟩,
                      ⟨⟨conversation_id, "direct", some key⟩ :: s.convs,
                        ⟨conversation_id, user_id⟩ ::
                          ⟨conversation_id, other_user_id⟩ :: s.parts,
                        s.next_id + 1⟩,
                      [.beginTx, .selectForUpdate, .insertConv, .insertParts,
                        .commitTx])

/-- C3: with an authenticated caller, an `other_user_id` that is not a
well-formed UUID or that equals the caller's own subject id is rejected with
`success = false` and an error message, before any store operation is issued
and with the store left unchanged. -/
theorem get_or_create_rejects_before_store (uuid_ok : String → Bool)
    (slot : Option Session) (now : Int) (other_user_id : String)
    (s : Store) (db : Nat → Option String) (user_id : String)
    (hauth : (get_user_id_from_store slot now).1 = .ok user_id)
    (hbad : uuid_ok other_user_id = false ∨ other_user_id = user_id) :
    ∃ msg, get_or_create_dm_conversation uuid_ok slot now other_user_id s db =
      (.ok ⟨false, none, some msg⟩, s, []) := by
  rcases hbad with hb | hb
  · exact ⟨"Invalid user ID",
      by simp [get_or_create_dm_conversation, hauth, hb]⟩
  · by_cases hu : uuid_ok other_user_id = false
    · exact ⟨"Invalid user ID",
        by simp [get_or_create_dm_conversation, hauth, hu]⟩
    · have hu' : uuid_ok other_user_id = true := by
        cases h : uuid_ok other_user_id
        · exact absurd h hu
        · rfl
      rw [hb] at hu'
      exact ⟨"Cannot create conversation with yourself",
        by simp [get_or_create_dm_conversation, hauth, hu', hb]⟩

theorem get_or_create_rejects_witness :
    ∃ msg, get_or_create_dm_conversation (fun _ => false) (some sampleSession) 0
        "zzz" ⟨[], [], 0⟩ (fun _ => none) =
      (.ok ⟨false, none, some msg⟩, ⟨[], [], 0⟩, []) :=
  get_or_create_rejects_before_store (fun _ => false) (some sampleSession) 0 "zzz"
    ⟨[], [], 0⟩ (fun _ => none) "u1" rfl (Or.inl rfl)

/-- C7: `get_or_create_dm_conversation` never commits partial state: every run
either leaves the committed store exactly as it was, or commits the new
conversation row together with both participant rows and reports success with
the new row's identifier. -/
theorem get_or_create_no_partial_commit (uuid_ok : String → Bool)
    (slot : Option Session) (now : Int) (other_user_id : String)
    (s : Store) (db : Nat → Option String) :
    (get_or_create_dm_conversation uuid_ok slot now other_user_id s db).2.1 = s ∨
    ∃ user_id,
      (get_user_id_from_store slot now).1 = .ok user_id ∧
      (get_or_create_dm_conversation uuid_ok slot now other_user_id s db).2.1 =
        ⟨⟨s.next_id, "direct", some (dm_key user_id other_user_id)⟩ :: s.convs,
          ⟨s.next_id, user_id⟩ :: ⟨s.next_id, other_user_id⟩ :: s.parts,
          s.next_id + 1⟩ ∧
      (get_or_create_dm_conversation uuid_ok slot now other_user_id s db).1 =
        .ok ⟨true, some s.next_id, none⟩ := by
  cases hgate : (get_user_id_from_store slot now).1 with
  | error e => left; simp [get_or_create_dm_conversation, hgate]
  | ok user_id =>
      unfold get_or_create_dm_conversation
      rw [hgate]
      dsimp only
      split
      · left; rfl
      · split
        · left; rfl
        · split
          · left; rfl
          · split
            · left; rfl
            · split
              · split
                · left; rfl
                · left; rfl
              · split
                · split
                  · left; rfl
                  · split
                    · split
                      · left; rfl
                      · left; rfl
                    · left; rfl
                · split
                  · left; rfl
                  · split
                    · left; rfl
                    · right
                      exact ⟨user_id, rfl, rfl, rfl⟩

/-- The canonical key is symmetric in its two arguments. -/
theorem dm_key_comm (a b : String) (h : a ≠ b) : dm_key a b = dm_key b a := by
  rw [dm_key_eq_if_lt, dm_key_eq_if_lt]
  rcases lt_trichotomy a b with hlt | heq | hgt
  · rw [if_pos hlt, if_neg (asymm hlt)]
  · exact absurd heq h
  · rw [if_neg (asymm hgt), if_pos hgt]

/-!
Concurrent model of `get_or_create_dm_conversation` for one pair of users
`{A, B}`: `n` calls run against the same store, process `i` passing the pair
in the order given by `ord i` (`true` = caller `A`, callee `B`). Each DB
statement of the transaction is one atomic step on the committed store:

* a `SELECT ... FOR UPDATE` / a `SELECT` sees exactly the committed rows
  (READ COMMITTED: uncommitted inserts of other transactions are invisible);
* an `INSERT .. ON CONFLICT (dm_participant_key) WHERE type = 'direct' ..
  DO NOTHING RETURNING id` conflicts (returns no row, which the code's
  `Err(_)` arm treats as "fetch the existing conversation") exactly when a
  committed row already matches the partial unique index; while another
  transaction holds an uncommitted insert for the same key the statement
  blocks on the speculative-insertion lock, so the step is not enabled;
* the two participant links are inserted in the same transaction as the
  conversation row, so the commit publishes all three rows atomically.

Omitting the `FOR UPDATE` row locks of readers only enlarges the set of
interleavings, so the theorem below covers every schedule the real store
admits. Errors are absent here: failing runs roll back and are covered by
the sequential no-partial-commit theorem.
-/

/-- Program counter of one in-flight call. -/
inductive PC where
  | start
  | fastCommit (cid : Nat)
  | tryInsert
  | committing (cid : Nat)
  | requery
  | done (cid : Nat)
deriving DecidableEq, Repr

/-- Whether a call holds an uncommitted conversation insert. -/
def PC.isCommitting : PC → Bool
  | .committing _ => true
  | _ => false

/-- The whole system: committed store plus every call's program counter. -/
structure Sys (n : Nat) where
  store : Store
  procs : Fin n → PC

/-- The session user id of call `i` (validated by the gate before the body). -/
def caller (A B : String) {n : Nat} (ord : Fin n → Bool) (i : Fin n) : String :=
  if ord i then A else B

/-- The `other_user_id` argument of call `i`. -/
def callee (A B : String) {n : Nat} (ord : Fin n → Bool) (i : Fin n) : String :=
  if ord i then B else A

/-- The canonical key call `i` computes. -/
def pkey (A B : String) {n : Nat} (ord : Fin n → Bool) (i : Fin n) : String :=
  dm_key (caller A B ord i) (callee A B ord i)

/-- Both argument orders compute the one canonical key. -/
theorem pkey_eq (A B : String) (hAB : A ≠ B) {n : Nat} (ord : Fin n → Bool)
    (i : Fin n) : pkey A B ord i = dm_key A B := by
  unfold pkey caller callee
  cases h : ord i
  · simp only [h, Bool.false_eq_true, if_false]
    exact dm_key_comm B A (Ne.symm hAB)
  · simp only [h, if_true]

/-- One atomic store statement of one call, as justified in the section
comment above. -/
inductive Step (A B : String) {n : Nat} (ord : Fin n → Bool) :
    Sys n → Sys n → Prop where
  | sel_found (i : Fin n) (st : Store) (procs : Fin n → PC) (cid : Nat)
      (hpc : procs i = .start)
      (hfind : find_direct_by_key st (pkey A B ord i) = some cid) :
      Step A B ord ⟨st, procs⟩ ⟨st, Function.update procs i (.fastCommit cid)⟩
  | sel_none (i : Fin n) (st : Store) (procs : Fin n → PC)
      (hpc : procs i = .start)
      (hfind : find_direct_by_key st (pkey A B ord i) = none) :
      Step A B ord ⟨st, procs⟩ ⟨st, Function.update procs i .tryInsert⟩
  | fast_done (i : Fin n) (st : Store) (procs : Fin n → PC) (cid : Nat)
      (hpc : procs i = .fastCommit cid) :
      Step A B ord ⟨st, procs⟩ ⟨st, Function.update procs i (.done cid)⟩
  | ins_conflict (i : Fin n) (st : Store) (procs : Fin n → PC) (cid : Nat)
      (hpc : procs i = .tryInsert)
      (hfind : find_direct_by_key st (pkey A B ord i) = some cid) :
      Step A B ord ⟨st, procs⟩ ⟨st, Function.update procs i .requery⟩
  | ins_ok (i : Fin n) (st : Store) (procs : Fin n → PC)
      (hpc : procs i = .tryInsert)
      (hfind : find_direct_by_key st (pkey A B ord i) = none)
      (hnopending : ∀ j, (procs j).isCommitting = false) :
      Step A B ord ⟨st, procs⟩
        ⟨{ st with next_id := st.next_id + 1 },
          Function.update procs i (.committing st.next_id)⟩
  | win_commit (i : Fin n) (st : Store) (procs : Fin n → PC) (cid : Nat)
      (hpc : procs i = .committing cid) :
      Step A B ord ⟨st, procs⟩
        ⟨⟨⟨cid, "direct", some (pkey A B ord i)⟩ :: st.convs,
            ⟨cid, caller A B ord i⟩ :: ⟨cid, callee A B ord i⟩ :: st.parts,
            st.next_id⟩,
          Function.update procs i (.done cid)⟩
  | requery_done (i : Fin n) (st : Store) (procs : Fin n → PC) (cid : Nat)
      (hpc : procs i = .requery)
      (hfind : find_by_key st (pkey A B ord i) = some cid) :
      Step A B ord ⟨st, procs⟩ ⟨st, Function.update procs i (.done cid)⟩

/-- Initial-store assumption: no conversation carries the pair's canonical key
yet, and the id counter is ahead of every committed row. -/
def store_ok (A B : String) (s : Store) : Prop :=
  (∀ c ∈ s.convs, c.dm_participant_key ≠ some (dm_key A B)) ∧
  (∀ c ∈ s.convs, c.id < s.next_id) ∧
  (∀ p ∈ s.parts, p.conversation_id < s.next_id)

/-- The participant rows of conversation `cid` are exactly one row for `A`
and one row for `B`. -/
def parts_ok (A B : String) (parts : List PartRow) (cid : Nat) : Prop :=
  parts.filter (fun p => p.conversation_id == cid) = [⟨cid, A⟩, ⟨cid, B⟩] ∨
  parts.filter (fun p => p.conversation_id == cid) = [⟨cid, B⟩, ⟨cid, A⟩]

/-- Inductive invariant of the concurrent model. -/
structure SysInv (A B : String) {n : Nat} (ord : Fin n → Bool) (sys : Sys n) :
    Prop where
  conv_id_lt : ∀ c ∈ sys.store.convs, c.id < sys.store.next_id
  part_id_lt : ∀ p ∈ sys.store.parts, p.conversation_id < sys.store.next_id
  key_count : sys.store.convs.countP
      (fun c => decide (c.dm_participant_key = some (dm_key A B))) ≤ 1
  key_direct : ∀ c ∈ sys.store.convs,
      c.dm_participant_key = some (dm_key A B) →
      c.ctype = "direct" ∧ parts_ok A B sys.store.parts c.id
  committing_inv : ∀ i cid, sys.procs i = .committing cid →
      (∀ c ∈ sys.store.convs, c.id ≠ cid) ∧
      (∀ p ∈ sys.store.parts, p.conversation_id ≠ cid) ∧
      cid < sys.store.next_id ∧
      (∀ c ∈ sys.store.convs, c.dm_participant_key ≠ some (dm_key A B)) ∧
      (∀ j, j ≠ i → (sys.procs j).isCommitting = false)
  done_inv : ∀ i cid,
      (sys.procs i = .fastCommit cid ∨ sys.procs i = .done cid) →
      ∃ c ∈ sys.store.convs, c.id = cid ∧
        c.dm_participant_key = some (dm_key A B)

theorem find_direct_by_key_some {s : Store} {k : String} {cid : Nat}
    (h : find_direct_by_key s k = some cid) :
    ∃ c ∈ s.convs, c.ctype = "direct" ∧ c.dm_participant_key = some k ∧
      c.id = cid := by
  unfold find_direct_by_key at h
  cases hf : s.convs.find?
      (fun c => decide (c.ctype = "direct" ∧ c.dm_participant_key = some k)) with
  | none => rw [hf] at h; simp at h
  | some c =>
      rw [hf] at h
      simp only [Option.map_some', Option.some.injEq] at h
      have hmem := List.mem_of_find?_eq_some hf
      have hp := List.find?_some hf
      simp only [decide_eq_true_eq] at hp
      exact ⟨c, hmem, hp.1, hp.2, h⟩

theorem find_direct_by_key_none {s : Store} {k : String}
    (h : find_direct_by_key s k = none) :
    ∀ c ∈ s.convs, ¬(c.ctype = "direct" ∧ c.dm_participant_key = some k) := by
  unfold find_direct_by_key at h
  rw [Option.map_eq_none'] at h
  intro c hc
  have := List.find?_eq_none.mp h c hc
  simpa using this

theorem find_by_key_some {s : Store} {k : String} {cid : Nat}
    (h : find_by_key s k = some cid) :
    ∃ c ∈ s.convs, c.dm_participant_key = some k ∧ c.id = cid := by
  unfold find_by_key at h
  cases hf : s.convs.find? (fun c => decide (c.dm_participant_key = some k)) with
  | none => rw [hf] at h; simp at h
  | some c =>
      rw [hf] at h
      simp only [Option.map_some', Option.some.injEq] at h
      have hmem := List.mem_of_find?_eq_some hf
      have hp := List.find?_some hf
      simp only [decide_eq_true_eq] at hp
      exact ⟨c, hmem, hp, h⟩

/-- A list whose `countP` is at most one has equal members among those
satisfying the predicate. -/
theorem countP_le_one_eq {α : Type} {p : α → Bool} :
    ∀ {l : List α}, l.countP p ≤ 1 → ∀ {c c' : α}, c ∈ l → c' ∈ l →
      p c = true → p c' = true → c = c' := by
  intro l
  induction l with
  | nil => intro _ c c' hc; cases hc
  | cons x xs ih =>
      intro hcount c c' hc hc' hpc hpc'
      rw [List.countP_cons] at hcount
      have hxs : xs.countP p ≤ 1 := le_trans (Nat.le_add_right _ _) hcount
      rcases List.mem_cons.mp hc with hcx | hcxs
      · rcases List.mem_cons.mp hc' with hcx' | hcxs'
        · rw [hcx, hcx']
        · exfalso
          have hpx : p x = true := hcx ▸ hpc
          have h1 : 0 < xs.countP p := List.countP_pos_iff.mpr ⟨c', hcxs', hpc'⟩
          rw [if_pos hpx] at hcount
          omega
      · rcases List.mem_cons.mp hc' with hcx' | hcxs'
        · exfalso
          have hpx : p x = true := hcx' ▸ hpc'
          have h1 : 0 < xs.countP p := List.countP_pos_iff.mpr ⟨c, hcxs, hpc⟩
          rw [if_pos hpx] at hcount
          omega
        · exact ih hxs hcxs hcxs' hpc hpc'


/-- Updating a process to a non-pending program counter preserves the
`committing` component of the invariant when the store is unchanged. -/
theorem committing_inv_update {A B : String} {n : Nat} {ord : Fin n → Bool}
    {st : Store} {procs : Fin n → PC} (hinv : SysInv A B ord ⟨st, procs⟩)
    (i : Fin n) (v : PC) (hv : v.isCommitting = false) :
    ∀ j cid', Function.update procs i v j = PC.committing cid' →
      (∀ c ∈ st.convs, c.id ≠ cid') ∧
      (∀ p ∈ st.parts, p.conversation_id ≠ cid') ∧
      cid' < st.next_id ∧
      (∀ c ∈ st.convs, c.dm_participant_key ≠ some (dm_key A B)) ∧
      (∀ j', j' ≠ j → (Function.update procs i v j').isCommitting = false) := by
  intro j cid' hj
  have hji : j ≠ i := by
    intro hcontra
    rw [hcontra, Function.update_same] at hj
    rw [hj] at hv
    exact Bool.noConfusion hv
  rw [Function.update_noteq hji] at hj
  obtain ⟨h1, h2, h3, h4, h5⟩ := hinv.committing_inv j cid' hj
  refine ⟨h1, h2, h3, h4, ?_⟩
  intro j' hj'
  by_cases hj'i : j' = i
  · rw [hj'i, Function.update_same]; exact hv
  · rw [Function.update_noteq hj'i]; exact h5 j' hj'

/-- The invariant is preserved by every step of the concurrent model. -/
theorem sysInv_step {A B : String} (hAB : A ≠ B) {n : Nat} {ord : Fin n → Bool}
    {sys sys' : Sys n} (hstep : Step A B ord sys sys')
    (hinv : SysInv A B ord sys) : SysInv A B ord sys' := by
  have hkey : ∀ i : Fin n, pkey A B ord i = dm_key A B := pkey_eq A B hAB ord
  cases hstep with
  | sel_found i st procs cid hpc hfind =>
      refine ⟨hinv.conv_id_lt, hinv.part_id_lt, hinv.key_count, hinv.key_direct,
        committing_inv_update hinv i _ rfl, ?_⟩
      intro j cid' hj
      dsimp only at hj ⊢
      by_cases hji : j = i
      · rw [hji, Function.update_same] at hj
        rcases hj with hj | hj
        · obtain ⟨c, hc, hdir, hck, hcid⟩ := find_direct_by_key_some hfind
          cases hj
          exact ⟨c, hc, hcid, by rwa [hkey i] at hck⟩
        · exact PC.noConfusion hj
      · rw [Function.update_noteq hji] at hj
        exact hinv.done_inv j cid' hj
  | sel_none i st procs hpc hfind =>
      refine ⟨hinv.conv_id_lt, hinv.part_id_lt, hinv.key_count, hinv.key_direct,
        committing_inv_update hinv i _ rfl, ?_⟩
      intro j cid' hj
      dsimp only at hj ⊢
      by_cases hji : j = i
      · rw [hji, Function.update_same] at hj
        rcases hj with hj | hj <;> exact PC.noConfusion hj
      · rw [Function.update_noteq hji] at hj
        exact hinv.done_inv j cid' hj
  | fast_done i st procs cid hpc =>
      refine ⟨hinv.conv_id_lt, hinv.part_id_lt, hinv.key_count, hinv.key_direct,
        committing_inv_update hinv i _ rfl, ?_⟩
      intro j cid' hj
      dsimp only at hj ⊢
      by_cases hji : j = i
      · rw [hji, Function.update_same] at hj
        rcases hj with hj | hj
        · exact PC.noConfusion hj
        · cases hj
          exact hinv.done_inv i cid (Or.inl hpc)
      · rw [Function.update_noteq hji] at hj
        exact hinv.done_inv j cid' hj
  | ins_conflict i st procs cid hpc hfind =>
      refine ⟨hinv.conv_id_lt, hinv.part_id_lt, hinv.key_count, hinv.key_direct,
        committing_inv_update hinv i _ rfl, ?_⟩
      intro j cid' hj
      dsimp only at hj ⊢
      by_cases hji : j = i
      · rw [hji, Function.update_same] at hj
        rcases hj with hj | hj <;> exact PC.noConfusion hj
      · rw [Function.update_noteq hji] at hj
        exact hinv.done_inv j cid' hj
  | requery_done i st procs cid hpc hfind =>
      refine ⟨hinv.conv_id_lt, hinv.part_id_lt, hinv.key_count, hinv.key_direct,
        committing_inv_update hinv i _ rfl, ?_⟩
      intro j cid' hj
      dsimp only at hj ⊢
      by_cases hji : j = i
      · rw [hji, Function.update_same] at hj
        rcases hj with hj | hj
        · exact PC.noConfusion hj
        · obtain ⟨c, hc, hck, hcid⟩ := find_by_key_some hfind
          cases hj
          exact ⟨c, hc, hcid, by rwa [hkey i] at hck⟩
      · rw [Function.update_noteq hji] at hj
        exact hinv.done_inv j cid' hj
  | ins_ok i st procs hpc hfind hnopending =>
      have hnok : ∀ c ∈ st.convs, c.dm_participant_key ≠ some (dm_key A B) := by
        intro c hc hck
        have hdir := (hinv.key_direct c hc hck).1
        have hnone := find_direct_by_key_none hfind c hc
        rw [hkey i] at hnone
        exact hnone ⟨hdir, hck⟩
      refine ⟨?_, ?_, hinv.key_count, hinv.key_direct, ?_, ?_⟩
      · intro c hc
        dsimp only at hc ⊢
        have := hinv.conv_id_lt c hc
        dsimp only at this
        omega
      · intro p hp
        dsimp only at hp ⊢
        have := hinv.part_id_lt p hp
        dsimp only at this
        omega
      · intro j cid' hj
        dsimp only at hj ⊢
        by_cases hji : j = i
        · rw [hji, Function.update_same] at hj
          cases hj
          refine ⟨?_, ?_, ?_, hnok, ?_⟩
          · intro c hc
            have := hinv.conv_id_lt c hc
            dsimp only at this
            omega
          · intro p hp
            have := hinv.part_id_lt p hp
            dsimp only at this
            omega
          · omega
          · intro j' hj'
            have hj'i : j' ≠ i := by
              intro hcontra
              exact hj' (hcontra.trans hji.symm)
            rw [Function.update_noteq hj'i]
            exact hnopending j'
        · rw [Function.update_noteq hji] at hj
          exfalso
          have hfalse := hnopending j
          rw [hj] at hfalse
          exact Bool.noConfusion hfalse
      · intro j cid' hj
        dsimp only at hj ⊢
        by_cases hji : j = i
        · rw [hji, Function.update_same] at hj
          rcases hj with hj | hj <;> exact PC.noConfusion hj
        · rw [Function.update_noteq hji] at hj
          exact hinv.done_inv j cid' hj
  | win_commit i st procs cid hpc =>
      obtain ⟨hnc, hnp, hlt, hnk, hothers⟩ := hinv.committing_inv i cid hpc
      refine ⟨?_, ?_, ?_, ?_, ?_, ?_⟩
      · intro c hc
        dsimp only at hc ⊢
        rcases List.mem_cons.mp hc with rfl | hc
        · exact hlt
        · exact hinv.conv_id_lt c hc
      · intro p hp
        dsimp only at hp ⊢
        rcases List.mem_cons.mp hp with rfl | hp
        · exact hlt
        · rcases List.mem_cons.mp hp with rfl | hp
          · exact hlt
          · exact hinv.part_id_lt p hp
      · dsimp only
        rw [List.countP_cons]
        have h0 : st.convs.countP
            (fun c => decide (c.dm_participant_key = some (dm_key A B))) = 0 :=
          List.countP_eq_zero.mpr (fun c hc => by simp [hnk c hc])
        have hptrue :
            (decide ((⟨cid, "direct", some (pkey A B ord i)⟩ :
              ConvRow).dm_participant_key = some (dm_key A B))) = true := by
          simp [hkey i]
        rw [h0, hptrue]
        simp
      · intro c hc hck
        dsimp only at hc hck ⊢
        rcases List.mem_cons.mp hc with rfl | hc
        · refine ⟨rfl, ?_⟩
          unfold parts_ok
          dsimp only
          have hfilter :
              st.parts.filter (fun p => p.conversation_id == cid) = [] :=
            List.filter_eq_nil_iff.mpr (fun p hp => by simp [hnp p hp])
          have hcons :
              ((⟨cid, caller A B ord i⟩ : PartRow) ::
                  (⟨cid, callee A B ord i⟩ : PartRow) :: st.parts).filter
                  (fun p => p.conversation_id == cid) =
                [⟨cid, caller A B ord i⟩, ⟨cid, callee A B ord i⟩] := by
            simp [List.filter_cons, hfilter]
          rw [hcons]
          cases hord : ord i
          · right
            unfold caller callee
            rw [hord]
            simp
          · left
            unfold caller callee
            rw [hord]
            simp
        · exact absurd hck (hnk c hc)
      · intro j cid' hj
        dsimp only at hj ⊢
        by_cases hji : j = i
        · rw [hji, Function.update_same] at hj
          exact PC.noConfusion hj
        · rw [Function.update_noteq hji] at hj
          exfalso
          have hfalse := hothers j hji
          dsimp only at hfalse
          rw [hj] at hfalse
          exact Bool.noConfusion hfalse
      · intro j cid' hj
        dsimp only at hj ⊢
        by_cases hji : j = i
        · rw [hji, Function.update_same] at hj
          rcases hj with hj | hj
          · exact PC.noConfusion hj
          · cases hj
            exact ⟨⟨cid, "direct", some (pkey A B ord i)⟩,
              List.mem_cons_self _ _, rfl, by simp [hkey i]⟩
        · rw [Function.update_noteq hji] at hj
          obtain ⟨c, hc, hcid, hck⟩ := hinv.done_inv j cid' hj
          exact ⟨c, List.mem_cons_of_mem _ hc, hcid, hck⟩

/-- The invariant holds initially. -/
theorem sysInv_init {A B : String} {n : Nat} {ord : Fin n → Bool} (s0 : Store)
    (h0 : store_ok A B s0) : SysInv A B ord (⟨s0, fun _ => PC.start⟩ : Sys n) := by
  obtain ⟨hk, hcid, hpid⟩ := h0
  refine ⟨hcid, hpid, ?_, ?_, ?_, ?_⟩
  · have hz : s0.convs.countP
        (fun c => decide (c.dm_participant_key = some (dm_key A B))) = 0 :=
      List.countP_eq_zero.mpr (fun c hc => by simp [hk c hc])
    dsimp only
    omega
  · intro c hc hck
    exact absurd hck (hk c hc)
  · intro i cid h
    exact PC.noConfusion h
  · intro i cid h
    rcases h with h | h <;> exact PC.noConfusion h

/-- The invariant holds in every reachable state. -/
theorem sysInv_reach {A B : String} (hAB : A ≠ B) {n : Nat} {ord : Fin n → Bool}
    {sys sys' : Sys n} (hreach : Relation.ReflTransGen (Step A B ord) sys sys')
    (hinv : SysInv A B ord sys) : SysInv A B ord sys' := by
  induction hreach with
  | refl => exact hinv
  | tail _ hstep ih => exact sysInv_step hAB hstep ih

/-- C1: for distinct users `A`, `B`, any `n ≥ 2` concurrent calls, any
interleaving and any mix of argument orders: once every call has returned,
all calls returned the same conversation identifier, exactly one conversation
row carries the pair's canonical key — a direct conversation with that
identifier — and it has exactly two participant rows, one for each user. -/
theorem get_or_create_dm_race_free (A B : String) (hAB : A ≠ B)
    (n : Nat) (hn : 2 ≤ n) (ord : Fin n → Bool) (s0 : Store)
    (h0 : store_ok A B s0) (sys : Sys n)
    (hreach : Relation.ReflTransGen (Step A B ord) ⟨s0, fun _ => PC.start⟩ sys)
    (r : Fin n → Nat) (hdone : ∀ i, sys.procs i = PC.done (r i)) :
    ∃ cid, (∀ i, r i = cid) ∧
      sys.store.convs.countP
        (fun c => decide (c.dm_participant_key = some (dm_key A B))) = 1 ∧
      (∃ c ∈ sys.store.convs, c.id = cid ∧ c.ctype = "direct" ∧
        c.dm_participant_key = some (dm_key A B)) ∧
      (sys.store.parts.filter (fun p => p.conversation_id == cid) =
          [⟨cid, A⟩, ⟨cid, B⟩] ∨
        sys.store.parts.filter (fun p => p.conversation_id == cid) =
          [⟨cid, B⟩, ⟨cid, A⟩]) := by
  have hinv := sysInv_reach hAB hreach (sysInv_init s0 h0)
  have i0 : Fin n := ⟨0, by omega⟩
  obtain ⟨c0, hc0, hc0id, hc0k⟩ := hinv.done_inv i0 (r i0) (Or.inr (hdone i0))
  refine ⟨c0.id, ?_, ?_, ?_, ?_⟩
  · intro i
    obtain ⟨c, hc, hcid, hck⟩ := hinv.done_inv i (r i) (Or.inr (hdone i))
    have hcc0 : c = c0 :=
      countP_le_one_eq hinv.key_count hc hc0 (by simp [hck]) (by simp [hc0k])
    rw [← hcid, hcc0]
  · have hpos : 0 < sys.store.convs.countP
        (fun c => decide (c.dm_participant_key = some (dm_key A B))) :=
      List.countP_pos_iff.mpr ⟨c0, hc0, by simp [hc0k]⟩
    have hle := hinv.key_count
    omega
  · exact ⟨c0, hc0, rfl, (hinv.key_direct c0 hc0 hc0k).1, hc0k⟩
  · exact (hinv.key_direct c0 hc0 hc0k).2

def w_ord : Fin 2 → Bool := fun _ => true

def w_st0 : Store := ⟨[], [], 0⟩

def w_procs0 : Fin 2 → PC := fun _ => PC.start

def w_procs1 : Fin 2 → PC := Function.update w_procs0 0 PC.tryInsert

def w_st1 : Store := ⟨[], [], 1⟩

def w_procs2 : Fin 2 → PC := Function.update w_procs1 0 (PC.committing 0)

def w_st2 : Store :=
  ⟨[⟨0, "direct", some (pkey "a" "b" w_ord 0)⟩],
    [⟨0, caller "a" "b" w_ord 0⟩, ⟨0, callee "a" "b" w_ord 0⟩], 1⟩

def w_procs3 : Fin 2 → PC := Function.update w_procs2 0 (PC.done 0)

def w_procs4 : Fin 2 → PC := Function.update w_procs3 1 (PC.fastCommit 0)

def w_procs5 : Fin 2 → PC := Function.update w_procs4 1 (PC.done 0)

theorem get_or_create_dm_race_free_witness :
    ∃ cid, (∀ i : Fin 2, (fun _ : Fin 2 => 0) i = cid) ∧
      w_st2.convs.countP
        (fun c => decide (c.dm_participant_key = some (dm_key "a" "b"))) = 1 ∧
      (∃ c ∈ w_st2.convs, c.id = cid ∧ c.ctype = "direct" ∧
        c.dm_participant_key = some (dm_key "a" "b")) ∧
      (w_st2.parts.filter (fun p => p.conversation_id == cid) =
          [⟨cid, "a"⟩, ⟨cid, "b"⟩] ∨
        w_st2.parts.filter (fun p => p.conversation_id == cid) =
          [⟨cid, "b"⟩, ⟨cid, "a"⟩]) := by
  refine get_or_create_dm_race_free "a" "b" (by decide) 2 (by omega) w_ord w_st0
      ?_ ⟨w_st2, w_procs5⟩ ?_ (fun _ => 0) ?_
  · exact ⟨by simp [w_st0], by simp [w_st0], by simp [w_st0]⟩
  · have s1 : Step "a" "b" w_ord ⟨w_st0, w_procs0⟩ ⟨w_st0, w_procs1⟩ :=
      Step.sel_none 0 w_st0 w_procs0 rfl rfl
    have s2 : Step "a" "b" w_ord ⟨w_st0, w_procs1⟩ ⟨w_st1, w_procs2⟩ :=
      Step.ins_ok 0 w_st0 w_procs1 (by decide) rfl (by decide)
    have s3 : Step "a" "b" w_ord ⟨w_st1, w_procs2⟩ ⟨w_st2, w_procs3⟩ :=
      Step.win_commit 0 w_st1 w_procs2 0 (by decide)
    have s4 : Step "a" "b" w_ord ⟨w_st2, w_procs3⟩ ⟨w_st2, w_procs4⟩ :=
      Step.sel_found 1 w_st2 w_procs3 0 (by decide) (by decide)
    have s5 : Step "a" "b" w_ord ⟨w_st2, w_procs4⟩ ⟨w_st2, w_procs5⟩ :=
      Step.fast_done 1 w_st2 w_procs4 0 (by decide)
    exact .head s1 (.head s2 (.head s3 (.head s4 (.head s5 .refl))))
  · intro i
    fin_cases i <;> decide
